import Mathlib

/-!
Shallow embedding of `pkg/gitqlite/git_stats.go` from the askgit repository:
the SQLite virtual-table module `gitStatsModule`, its table type
`gitStatsTable`, and the per-scan cursor `statsCursor`.

Modelling conventions:
  * Go machine integers for line counts are modelled as `Int` (the counts
    involved are small and never overflow in the source).
  * Go `nil` pointers / `nil` slices are modelled with `Option` / `[]`.
  * A Go runtime panic (nil dereference, index out of range) is modelled as
    `none` in an `Option`-valued result.
  * Fallible calls return `Except GitError`.
  * The upstream go-git library is not part of this repository; the data it
    serves (head reference, commit log, per-commit diff statistics, file
    listings) is modelled as explicit data carried by `Commit` and `Repo`.
-/

/-- A file present at a commit, as enumerated by go-git `commit.Files()`;
`lines` is the content split into lines, as returned by `file.Lines()`. -/
structure GitFile where
  name : String
  lines : List String
deriving DecidableEq

/-- go-git `object.FileStat`: per-file added/deleted line counts. -/
structure FileStat where
  name : String
  addition : Int
  deletion : Int
deriving DecidableEq

/-- A commit as seen through the go-git calls made in `git_stats.go`:
its hash string (`commit.ID().String()`), its parent count
(`commit.NumParents()`), the files present at the commit
(`commit.Files()` with their `Lines()`), and the file statistics the
upstream diff provider returns for it (`commit.Stats()`).

Modelled from the spec: the upstream collaborator supplies "per-commit file
diff statistics relative to a parent" — the spec constrains `stats` only
for commits that have a parent, so the field is free data here. -/
structure Commit where
  id : String
  numParents : Nat
  files : List GitFile
  stats : List FileStat
deriving DecidableEq

/-- Result of `repo.Head()`: a resolved reference hash, the benign
`plumbing.ErrReferenceNotFound` ("unborn" repository), or another error. -/
inductive HeadResult where
  | ok (hash : String)
  | refNotFound
  | otherErr (msg : String)
deriving DecidableEq

/-- Errors surfaced by the adapter. `eof` models Go's `io.EOF`. -/
inductive GitError where
  | eof
  | other (msg : String)
deriving DecidableEq

/-- Modelled from the spec: the upstream go-git repository reader.
`head` is what `repo.Head()` returns; `log` is the commit sequence the
walker `repo.Log(From: head, Order: LogOrderCommitterTime)` produces —
per the spec, exactly the commits reachable from the history tip, in
committer-time order, most recent first. -/
structure Repo where
  head : HeadResult
  log : List Commit
deriving DecidableEq

/-- The cursor state of `statsCursor` (the `repo` field is passed to the
operations explicitly instead of being stored). `current = none` models the
Go `nil` pointer, `commitIter = none` a `nil` iterator, and
`commitIter = some l` a live iterator whose remaining commits are `l`. -/
structure StatsCursor where
  current : Option Commit
  stats : List FileStat
  statIndex : Nat
  commitIter : Option (List Commit)
deriving DecidableEq

/-- The cursor returned by `gitStatsTable.Open`: `&statsCursor{repo: repo}`,
every other field left at its zero value. -/
def freshCursor : StatsCursor := ⟨none, [], 0, none⟩

/-- The statistics `statsCursor.Next` builds for a parentless commit:
one entry per file, `Addition = len(lines)`, `Deletion = 0`. -/
def rootStats (c : Commit) : List FileStat :=
  c.files.map fun f => ⟨f.name, (f.lines.length : Int), 0⟩

/-- The statistics `statsCursor.Next` installs for a commit it advances to:
the root-commit enumeration when `NumParents() == 0`, otherwise the
upstream `commit.Stats()`. -/
def effStats (c : Commit) : List FileStat :=
  if c.numParents = 0 then rootStats c else c.stats

/-- `statsCursor.Filter`: resolve the head (returning `nil` on
`ErrReferenceNotFound` without touching the cursor), build the walker,
advance it to the first commit, install that commit's `Stats()` and reset
the file index. An empty walker makes `iter.Next()` return `io.EOF`,
which `Filter` propagates as an error. -/
def StatsCursor.Filter (vc : StatsCursor) (repo : Repo) : Except GitError StatsCursor :=
  match repo.head with
  | HeadResult.refNotFound => Except.ok vc
  | HeadResult.otherErr m => Except.error (GitError.other m)
  | HeadResult.ok _ =>
    match repo.log with
    | [] => Except.error GitError.eof
    | c :: rest => Except.ok ⟨some c, c.stats, 0, some rest⟩

/-- `statsCursor.Next`: if more files remain, bump `statIndex`; otherwise
reset `statIndex`, pull the next commit from the walker (on `io.EOF` clear
`current`), and install that commit's statistics — the root-commit
enumeration for a parentless commit, `commit.Stats()` otherwise.
`none` models the nil-pointer panic when `commitIter` is `nil`. -/
def StatsCursor.Next (vc : StatsCursor) : Option StatsCursor :=
  if vc.stats.length > vc.statIndex + 1 then
    some { vc with statIndex := vc.statIndex + 1 }
  else
    match vc.commitIter with
    | none => none
    | some [] => some { vc with statIndex := 0, current := none }
    | some (c :: rest) => some ⟨some c, effStats c, 0, some rest⟩

/-- `statsCursor.EOF`: true iff `current` is `nil`. -/
def StatsCursor.EOF (vc : StatsCursor) : Bool :=
  vc.current.isNone

/-- A value handed to the SQLite context by `statsCursor.Column`. -/
inductive ColValue where
  | text (s : String)
  | int (i : Int)
  | null
deriving DecidableEq

/-- `statsCursor.Column`: column 0 reads the current commit's hash
(nil dereference — `none` — when `current` is `nil`); columns 1–3 index
`vc.stats[vc.statIndex]` (index out of range — `none` — when the index is
not in bounds); any other column sets no result. -/
def StatsCursor.Column (vc : StatsCursor) (col : Nat) : Option ColValue :=
  match col with
  | 0 =>
    match vc.current with
    | none => none
    | some c => some (ColValue.text c.id)
  | 1 => (vc.stats[vc.statIndex]?).map fun st => ColValue.text st.name
  | 2 => (vc.stats[vc.statIndex]?).map fun st => ColValue.int st.addition
  | 3 => (vc.stats[vc.statIndex]?).map fun st => ColValue.int st.deletion
  | _ => some ColValue.null

/-- The virtual table instance: `gitStatsTable` (the `repo` handle is
re-derived by `Open`, so only the path is state). -/
structure GitStatsTable where
  repoPath : String
deriving DecidableEq

/-- Strip the first and last character: Go `s[1 : len(s)-1]`
(well-defined only when `2 ≤ s.length`; the caller panics otherwise). -/
def stripOuter (s : String) : String :=
  String.mk (s.toList.drop 1).dropLast

/-- `gitStatsModule.Create`: evaluate `args[0]` for the schema text (panic —
`none` — when `args` is empty), call `DeclareVTab` (its success is the
`declareOk` parameter; on failure the error is returned before `args[3]` is
touched), then compute `args[3][1 : len(args[3])-1]` (panic when `args` has
fewer than 4 elements or `args[3]` is shorter than 2) and store it as the
repository path. -/
def GitStatsModule.Create (declareOk : Bool) (args : List String) :
    Option (Except GitError GitStatsTable) :=
  match args[0]? with
  | none => none
  | some _ =>
    if declareOk then
      match args[3]? with
      | none => none
      | some a3 =>
        if 2 ≤ a3.length then some (Except.ok ⟨stripOuter a3⟩) else none
    else
      some (Except.error (GitError.other "declare vtab failed"))

/-- `gitStatsModule.Connect`: delegates to `Create` unchanged. -/
def GitStatsModule.Connect (declareOk : Bool) (args : List String) :
    Option (Except GitError GitStatsTable) :=
  GitStatsModule.Create declareOk args

/-- `gitStatsTable.Open`: `git.PlainOpen(v.repoPath)` (abstracted as the
`plainOpen` argument), propagating its error, else returning a zero-valued
`statsCursor` over the opened repository. -/
def GitStatsTable.Open (plainOpen : String → Except GitError Repo)
    (v : GitStatsTable) : Except GitError (Repo × StatsCursor) :=
  match plainOpen v.repoPath with
  | Except.error e => Except.error e
  | Except.ok r => Except.ok (r, freshCursor)

/-- One constraint handed to `BestIndex` (`sqlite3.InfoConstraint`). -/
structure InfoConstraint where
  column : Int
  op : Nat
  usable : Bool
deriving DecidableEq

/-- One ordering term handed to `BestIndex` (`sqlite3.InfoOrderBy`). -/
structure InfoOrderBy where
  column : Int
  desc : Bool
deriving DecidableEq

/-- The plan `BestIndex` returns (`sqlite3.IndexResult`), reduced to the
field the source sets: the per-constraint `Used` flags. -/
structure IndexResult where
  used : List Bool
deriving DecidableEq

/-- `gitStatsTable.BestIndex`: `make([]bool, len(cst))` — a `Used` slice of
the right length, all `false` — and no error. -/
def GitStatsTable.BestIndex (v : GitStatsTable) (cst : List InfoConstraint)
    (ob : List InfoOrderBy) : Except GitError IndexResult :=
  Except.ok ⟨List.replicate cst.length false⟩

/-- One emitted row position: the commit hash `Column 0` would return and
the `stats` entry (if any) columns 1–3 would read. -/
structure Row where
  commit_id : String
  stat : Option FileStat
deriving DecidableEq

/-- The row at the cursor's current position (`none` when the cursor is
exhausted and no row exists). -/
def StatsCursor.currentRow (vc : StatsCursor) : Option Row :=
  vc.current.map fun c => ⟨c.id, vc.stats[vc.statIndex]?⟩

/-- Modelled from the spec: the query engine's drive loop — after `Filter`,
alternately read the position and call `Next` until `EOF`. `fuel` bounds the
iteration; `runScan` is exact whenever `fuel` is at least the number of rows
the scan produces. A `Next` panic (`none`) aborts the scan. -/
def runScan : Nat → StatsCursor → List Row
  | 0, _ => []
  | fuel + 1, vc =>
    match vc.current with
    | none => []
    | some c =>
      match vc.Next with
      | none => [⟨c.id, vc.stats[vc.statIndex]?⟩]
      | some vc2 => ⟨c.id, vc.stats[vc.statIndex]?⟩ :: runScan fuel vc2

/-- Fuel for one commit: an upper bound on the rows it contributes. -/
def commitFuel (c : Commit) : Nat :=
  (effStats c).length + 1

/-- Fuel sufficient to drive a cursor to exhaustion. -/
def cursorFuel (vc : StatsCursor) : Nat :=
  vc.stats.length + ((vc.commitIter.getD []).map commitFuel).sum + 2

/-- A full scan from a given cursor: `Filter`, then iterate to `EOF`. -/
def scanFrom (repo : Repo) (vc : StatsCursor) : Except GitError (List Row) :=
  (vc.Filter repo).map fun v => runScan (cursorFuel v) v

/-- A full scan on a fresh cursor, as the engine performs per query. -/
def scanRows (repo : Repo) : Except GitError (List Row) :=
  scanFrom repo freshCursor

/-- The rows the scan emits for one commit, starting at file index `i`:
a single id-only position when the statistics list is empty, otherwise one
row per remaining `FileStat`. -/
def commitRowsFrom (c : Commit) (s : List FileStat) (i : Nat) : List Row :=
  if s = [] then [⟨c.id, none⟩]
  else (s.drop i).map fun st => ⟨c.id, some st⟩

/-- The rows the scan emits for the commits still in the walker (each
reached through `Next`, hence with `effStats`). -/
def logRows (cs : List Commit) : List Row :=
  (cs.map fun k => commitRowsFrom k (effStats k) 0).flatten

/-- The commit-id blocks a full scan produces: the first commit (positioned
by `Filter`) contributes `max 1 commit.stats.length` copies of its id, every
later commit (positioned by `Next`) `max 1 (effStats commit).length`. -/
def scanIdBlocks (repo : Repo) : List (List String) :=
  match repo.log with
  | [] => []
  | c :: rest =>
    List.replicate (max 1 c.stats.length) c.id ::
      rest.map fun k => List.replicate (max 1 (effStats k).length) k.id

/-- Cursor states reachable by driving the protocol on a repository:
the result of `Filter` on the fresh cursor `Open` returns, of a repeated
`Filter`, or of a `Next` step. -/
inductive Reaches (repo : Repo) : StatsCursor → Prop where
  | filtered (vc2 : StatsCursor) :
      freshCursor.Filter repo = Except.ok vc2 → Reaches repo vc2
  | refiltered (vc vc2 : StatsCursor) :
      Reaches repo vc → vc.Filter repo = Except.ok vc2 → Reaches repo vc2
  | stepped (vc vc2 : StatsCursor) :
      Reaches repo vc → vc.Next = some vc2 → Reaches repo vc2

/-! ## Scan characterization -/

lemma runScan_exhausted (fuel : Nat) (s : List FileStat) (i : Nat)
    (it : Option (List Commit)) : runScan fuel ⟨none, s, i, it⟩ = [] := by
  cases fuel <;> rfl

lemma logRows_cons (c : Commit) (cs : List Commit) :
    logRows (c :: cs) = commitRowsFrom c (effStats c) 0 ++ logRows cs := rfl

lemma commitRowsFrom_last (c : Commit) (s : List FileStat) (i : Nat)
    (hi : i < s.length ∨ (s = [] ∧ i = 0))
    (hlen : ¬ s.length > i + 1) :
    commitRowsFrom c s i = [⟨c.id, s[i]?⟩] := by
  rcases hi with hi | ⟨hs, hi0⟩
  · have hne : s ≠ [] := by
      intro h
      subst h
      simp at hi
    rw [commitRowsFrom, if_neg hne]
    rw [List.drop_eq_getElem_cons hi]
    have hd : s.drop (i + 1) = [] := List.drop_eq_nil_of_le (by omega)
    rw [hd, List.map_cons, List.map_nil, List.getElem?_eq_getElem hi]
  · subst hs
    subst hi0
    rfl

lemma runScan_positioned : ∀ (fuel : Nat) (c : Commit) (s : List FileStat)
    (i : Nat) (rest : List Commit),
    (i < s.length ∨ (s = [] ∧ i = 0)) →
    (s.length - i) + ((rest.map commitFuel).sum) + 1 ≤ fuel →
    runScan fuel ⟨some c, s, i, some rest⟩ = commitRowsFrom c s i ++ logRows rest := by
  intro fuel
  induction fuel with
  | zero =>
    intro c s i rest hi hf
    omega
  | succ fuel ih =>
    intro c s i rest hi hf
    by_cases hlen : s.length > i + 1
    · have hi2 : i < s.length := by omega
      have hnext : StatsCursor.Next ⟨some c, s, i, some rest⟩ =
          some ⟨some c, s, i + 1, some rest⟩ := by
        simp [StatsCursor.Next, hlen]
      have hne : s ≠ [] := by
        intro h
        subst h
        simp at hlen
      rw [runScan]
      simp only [hnext]
      rw [ih c s (i + 1) rest (Or.inl (by omega)) (by omega)]
      rw [commitRowsFrom, if_neg hne, commitRowsFrom, if_neg hne]
      rw [List.drop_eq_getElem_cons hi2, List.map_cons,
        List.getElem?_eq_getElem hi2]
      rfl
    · cases rest with
      | nil =>
        have hnext : StatsCursor.Next ⟨some c, s, i, some []⟩ =
            some ⟨none, s, 0, some []⟩ := by
          simp [StatsCursor.Next, hlen]
        rw [runScan]
        simp only [hnext]
        rw [runScan_exhausted]
        rw [commitRowsFrom_last c s i hi hlen]
        rfl
      | cons c2 rest2 =>
        have hnext : StatsCursor.Next ⟨some c, s, i, some (c2 :: rest2)⟩ =
            some ⟨some c2, effStats c2, 0, some rest2⟩ := by
          simp [StatsCursor.Next, hlen]
        have hcf : commitFuel c2 = (effStats c2).length + 1 := rfl
        have hi2 : 0 < (effStats c2).length ∨ (effStats c2 = [] ∧ 0 = 0) := by
          by_cases h : effStats c2 = []
          · exact Or.inr ⟨h, rfl⟩
          · exact Or.inl (List.length_pos.mpr h)
        have hf2 : ((effStats c2).length - 0) + ((rest2.map commitFuel).sum) + 1 ≤ fuel := by
          simp only [List.map_cons, List.sum_cons, hcf] at hf
          omega
        rw [runScan]
        simp only [hnext]
        rw [ih c2 (effStats c2) 0 rest2 hi2 hf2]
        rw [commitRowsFrom_last c s i hi hlen, logRows_cons]
        rfl

lemma scanRows_eq (repo : Repo) (h0 : String) (c : Commit) (rest : List Commit)
    (hhead : repo.head = HeadResult.ok h0) (hlog : repo.log = c :: rest) :
    scanRows repo = Except.ok (commitRowsFrom c c.stats 0 ++ logRows rest) := by
  have hfil : freshCursor.Filter repo = Except.ok ⟨some c, c.stats, 0, some rest⟩ := by
    rw [StatsCursor.Filter, hhead, hlog]
  rw [scanRows, scanFrom, hfil, Except.map]
  have hfuel : (c.stats.length - 0) +
      ((rest.map commitFuel).sum) + 1 ≤
      cursorFuel ⟨some c, c.stats, 0, some rest⟩ := by
    simp [cursorFuel]
  rw [runScan_positioned _ c c.stats 0 rest
    (by
      by_cases h : c.stats = []
      · exact Or.inr ⟨h, rfl⟩
      · exact Or.inl (List.length_pos.mpr h)) hfuel]

lemma map_commitId_commitRowsFrom (c : Commit) (s : List FileStat) :
    (commitRowsFrom c s 0).map Row.commit_id =
      List.replicate (max 1 s.length) c.id := by
  by_cases h : s = []
  · subst h
    rfl
  · have h1 : 1 ≤ s.length := List.length_pos.mpr h
    rw [commitRowsFrom, if_neg h, List.drop_zero, List.map_map,
      Nat.max_eq_right h1]
    exact List.map_const' s c.id

lemma map_commitId_logRows (cs : List Commit) :
    (logRows cs).map Row.commit_id =
      (cs.map fun k => List.replicate (max 1 (effStats k).length) k.id).flatten := by
  induction cs with
  | nil => rfl
  | cons k cs ih =>
    rw [logRows_cons, List.map_append, ih, List.map_cons, List.flatten_cons,
      map_commitId_commitRowsFrom]

lemma mem_flatten_replicate_blocks (f : Commit → Nat) (hf : ∀ k, 1 ≤ f k)
    (cs : List Commit) (x : String) :
    (x ∈ (cs.map fun k => List.replicate (f k) k.id).flatten ↔
      x ∈ cs.map Commit.id) := by
  constructor
  · intro hx
    rcases List.mem_flatten.mp hx with ⟨l, hl, hxl⟩
    rcases List.mem_map.mp hl with ⟨k, hk, rfl⟩
    rcases List.mem_replicate.mp hxl with ⟨-, rfl⟩
    exact List.mem_map.mpr ⟨k, hk, rfl⟩
  · intro hx
    rcases List.mem_map.mp hx with ⟨k, hk, rfl⟩
    refine List.mem_flatten.mpr ⟨List.replicate (f k) k.id,
      List.mem_map.mpr ⟨k, hk, rfl⟩, ?_⟩
    refine List.mem_replicate.mpr ⟨?_, rfl⟩
    have := hf k
    omega

/-! ## Claim theorems -/

/-- C7: for every list of input constraints and orderings, `BestIndex`
returns without error a plan in which no constraint is consumed — the
`Used` flag is `false` for every constraint — forcing a full scan. -/
theorem gitStats_BestIndex_no_constraints (v : GitStatsTable)
    (cst : List InfoConstraint) (ob : List InfoOrderBy) :
    ∃ res, v.BestIndex cst ob = Except.ok res ∧
      res.used.length = cst.length ∧ ∀ b ∈ res.used, b = false := by
  refine ⟨⟨List.replicate cst.length false⟩, rfl, List.length_replicate _ _,
    fun b hb => List.eq_of_mem_replicate hb⟩

/-- C8: `Connect` has identical behavior to `Create` on every connection
state and argument list — same schema declaration, same quote stripping,
same resulting table, same failures. -/
theorem gitStats_Connect_eq_Create :
    ∀ (declareOk : Bool) (args : List String),
      GitStatsModule.Connect declareOk args = GitStatsModule.Create declareOk args :=
  fun _ _ => rfl

/-- C9: `Create` is total exactly under the precondition that `args` has at
least 4 elements and `args[3]` has length at least 2. First conjunct: with
the precondition (witnessed by `args[3]? = some a3`, which forces
`4 ≤ args.length`), `Create` returns a value for either `DeclareVTab`
outcome. Second conjunct: when the schema declaration succeeds but the
precondition fails, the unguarded indexing/slicing panics (`none`) instead
of returning a well-formed error. -/
theorem gitStats_Create_args_safety :
    (∀ (declareOk : Bool) (args : List String) (a3 : String),
      args[3]? = some a3 → 2 ≤ a3.length →
      ∃ r, GitStatsModule.Create declareOk args = some r) ∧
    (∀ args : List String,
      args.length < 4 ∨ (∃ a3, args[3]? = some a3 ∧ a3.length < 2) →
      GitStatsModule.Create true args = none) := by
  constructor
  · intro declareOk args a3 h3 hlen
    have h4 : 3 < args.length := by
      by_contra h
      rw [List.getElem?_eq_none (by omega)] at h3
      exact Option.noConfusion h3
    have h0 : args[0]? = some args[0] := List.getElem?_eq_getElem (by omega)
    cases declareOk with
    | false =>
      refine ⟨Except.error (GitError.other "declare vtab failed"), ?_⟩
      simp [GitStatsModule.Create, h0]
    | true =>
      refine ⟨Except.ok ⟨stripOuter a3⟩, ?_⟩
      simp [GitStatsModule.Create, h0, h3, hlen]
  · intro args hviol
    rcases hviol with h4 | ⟨a3, h3, hshort⟩
    · by_cases hz : args.length = 0
      · have : args = [] := List.length_eq_zero.mp hz
        subst this
        rfl
      · have h0 : args[0]? = some args[0] := List.getElem?_eq_getElem (by omega)
        have h3 : args[3]? = none := List.getElem?_eq_none (by omega)
        simp [GitStatsModule.Create, h0, h3]
    · have h4 : 3 < args.length := by
        by_contra h
        rw [List.getElem?_eq_none (by omega)] at h3
        exact Option.noConfusion h3
      have h0 : args[0]? = some args[0] := List.getElem?_eq_getElem (by omega)
      simp [GitStatsModule.Create, h0, h3, show ¬ 2 ≤ a3.length by omega]

/-- C9 witness: a well-formed 4-element argument list is accepted, while a
1-element list panics on the unguarded `args[3]`. -/
theorem gitStats_Create_args_safety_witness :
    (∃ r, GitStatsModule.Create true
        ["stats", "gitstats", "main", String.mk ['"', 'p', '"']] = some r) ∧
    GitStatsModule.Create true ["stats"] = none :=
  ⟨gitStats_Create_args_safety.1 true _ (String.mk ['"', 'p', '"']) rfl (by decide),
    gitStats_Create_args_safety.2 ["stats"] (Or.inl (by decide))⟩

/-- C6: when the repository path argument `args[3]` is textually wrapped in
quote characters, `Create` strips exactly one layer of enclosing quotes from
both ends and stores the result as the repository path; a later `Open`
resolves exactly that path. -/
theorem gitStats_Create_strips_quotes (args : List String) (p : String)
    (h3 : args[3]? = some (String.mk ('"' :: (p.toList ++ ['"'])))) :
    GitStatsModule.Create true args = some (Except.ok ⟨p⟩) ∧
    ∀ (plainOpen : String → Except GitError Repo) (r : Repo),
      plainOpen p = Except.ok r →
      GitStatsTable.Open plainOpen ⟨p⟩ = Except.ok (r, freshCursor) := by
  constructor
  · have h4 : 3 < args.length := by
      by_contra h
      rw [List.getElem?_eq_none (by omega)] at h3
      exact Option.noConfusion h3
    have h0 : args[0]? = some args[0] := List.getElem?_eq_getElem (by omega)
    have hlen : 2 ≤ (String.mk ('"' :: (p.toList ++ ['"']))).length := by
      show 2 ≤ ('"' :: (p.toList ++ ['"'])).length
      simp
    have hstrip : stripOuter (String.mk ('"' :: (p.toList ++ ['"']))) = p := by
      show String.mk (((('"' :: (p.toList ++ ['"'])).drop 1)).dropLast) = p
      rw [List.drop_one, List.tail_cons, List.dropLast_concat]
      show String.mk p.data = p
      cases p
      rfl
    have hstrip2 : stripOuter (String.mk ('"' :: (p.data ++ ['"']))) = p := hstrip
    simp [GitStatsModule.Create, h0, h3, hlen, hstrip2]
  · intro plainOpen r hr
    rw [GitStatsTable.Open]
    simp [hr]

/-- C6 witness: on the argument list a declaring layer produces, the path
`"path"` wrapped in double quotes is stored unquoted. -/
theorem gitStats_Create_strips_quotes_witness :
    GitStatsModule.Create true
        ["stats", "gitstats", "main",
          String.mk ['"', 'p', 'a', 't', 'h', '"']] =
      some (Except.ok ⟨"path"⟩) ∧
    ∀ (plainOpen : String → Except GitError Repo) (r : Repo),
      plainOpen "path" = Except.ok r →
      GitStatsTable.Open plainOpen ⟨"path"⟩ = Except.ok (r, freshCursor) :=
  gitStats_Create_strips_quotes
    ["stats", "gitstats", "main", String.mk ['"', 'p', 'a', 't', 'h', '"']]
    "path" rfl

/-- C3: on a repository with no commits (`ErrReferenceNotFound` from
`Head()`), `Filter` returns without error and without touching the fresh
cursor, which therefore immediately reports `EOF() = true`; the whole scan
yields zero rows and no error. -/
theorem gitStats_unborn_empty_scan (repo : Repo)
    (h : repo.head = HeadResult.refNotFound) :
    freshCursor.Filter repo = Except.ok freshCursor ∧
    freshCursor.EOF = true ∧
    scanRows repo = Except.ok [] := by
  refine ⟨?_, rfl, ?_⟩
  · rw [StatsCursor.Filter, h]
  · rw [scanRows, scanFrom, StatsCursor.Filter, h]
    rfl

/-- C3 witness: the concrete unborn repository. -/
theorem gitStats_unborn_empty_scan_witness :
    freshCursor.Filter ⟨HeadResult.refNotFound, []⟩ = Except.ok freshCursor ∧
    freshCursor.EOF = true ∧
    scanRows ⟨HeadResult.refNotFound, []⟩ = Except.ok [] :=
  gitStats_unborn_empty_scan ⟨HeadResult.refNotFound, []⟩ rfl

/-- C4: on a positioned cursor, `Next` advances only the file index when
more files remain (the current commit is unchanged); otherwise it pulls the
next commit from the walker, installs that commit's recomputed statistics
and resets the file index to 0; and when the walker is exhausted it clears
`current`, after which `EOF` returns `true`. -/
theorem gitStats_Next_state_machine (vc : StatsCursor) (c : Commit)
    (hpos : vc.current = some c) :
    (vc.stats.length > vc.statIndex + 1 →
      vc.Next = some { vc with statIndex := vc.statIndex + 1 } ∧
      ({ vc with statIndex := vc.statIndex + 1 } : StatsCursor).current = some c) ∧
    (¬ vc.stats.length > vc.statIndex + 1 →
      ∀ (c2 : Commit) (rest : List Commit),
        vc.commitIter = some (c2 :: rest) →
        vc.Next = some ⟨some c2, effStats c2, 0, some rest⟩) ∧
    (¬ vc.stats.length > vc.statIndex + 1 →
      vc.commitIter = some [] →
      vc.Next = some { vc with statIndex := 0, current := none } ∧
      StatsCursor.EOF { vc with statIndex := 0, current := none } = true) := by
  refine ⟨fun h => ⟨?_, hpos⟩, fun h c2 rest hit => ?_, fun h hit => ⟨?_, rfl⟩⟩
  · simp [StatsCursor.Next, h]
  · simp [StatsCursor.Next, h, hit]
  · simp [StatsCursor.Next, h, hit]

/-- C4 witness: a cursor positioned on a commit with two remaining files
and an exhausted walker. -/
theorem gitStats_Next_state_machine_witness :
    (((⟨some ⟨"C", 1, [], []⟩, [⟨"a", 1, 0⟩, ⟨"b", 2, 0⟩], 0, some []⟩ :
        StatsCursor)).stats.length >
        ((⟨some ⟨"C", 1, [], []⟩, [⟨"a", 1, 0⟩, ⟨"b", 2, 0⟩], 0, some []⟩ :
        StatsCursor)).statIndex + 1 →
      (⟨some ⟨"C", 1, [], []⟩, [⟨"a", 1, 0⟩, ⟨"b", 2, 0⟩], 0, some []⟩ :
        StatsCursor).Next =
        some { (⟨some ⟨"C", 1, [], []⟩, [⟨"a", 1, 0⟩, ⟨"b", 2, 0⟩], 0, some []⟩ :
          StatsCursor) with statIndex := 1 } ∧
      ({ (⟨some ⟨"C", 1, [], []⟩, [⟨"a", 1, 0⟩, ⟨"b", 2, 0⟩], 0, some []⟩ :
          StatsCursor) with statIndex := 1 } : StatsCursor).current =
        some ⟨"C", 1, [], []⟩) ∧
    (¬ (⟨some ⟨"C", 1, [], []⟩, [⟨"a", 1, 0⟩, ⟨"b", 2, 0⟩], 0, some []⟩ :
        StatsCursor).stats.length >
        (⟨some ⟨"C", 1, [], []⟩, [⟨"a", 1, 0⟩, ⟨"b", 2, 0⟩], 0, some []⟩ :
        StatsCursor).statIndex + 1 →
      ∀ (c2 : Commit) (rest : List Commit),
        (⟨some ⟨"C", 1, [], []⟩, [⟨"a", 1, 0⟩, ⟨"b", 2, 0⟩], 0, some []⟩ :
          StatsCursor).commitIter = some (c2 :: rest) →
        (⟨some ⟨"C", 1, [], []⟩, [⟨"a", 1, 0⟩, ⟨"b", 2, 0⟩], 0, some []⟩ :
          StatsCursor).Next = some ⟨some c2, effStats c2, 0, some rest⟩) ∧
    (¬ (⟨some ⟨"C", 1, [], []⟩, [⟨"a", 1, 0⟩, ⟨"b", 2, 0⟩], 0, some []⟩ :
        StatsCursor).stats.length >
        (⟨some ⟨"C", 1, [], []⟩, [⟨"a", 1, 0⟩, ⟨"b", 2, 0⟩], 0, some []⟩ :
        StatsCursor).statIndex + 1 →
      (⟨some ⟨"C", 1, [], []⟩, [⟨"a", 1, 0⟩, ⟨"b", 2, 0⟩], 0, some []⟩ :
        StatsCursor).commitIter = some [] →
      (⟨some ⟨"C", 1, [], []⟩, [⟨"a", 1, 0⟩, ⟨"b", 2, 0⟩], 0, some []⟩ :
        StatsCursor).Next =
        some { (⟨some ⟨"C", 1, [], []⟩, [⟨"a", 1, 0⟩, ⟨"b", 2, 0⟩], 0, some []⟩ :
          StatsCursor) with statIndex := 0, current := none } ∧
      StatsCursor.EOF
        { (⟨some ⟨"C", 1, [], []⟩, [⟨"a", 1, 0⟩, ⟨"b", 2, 0⟩], 0, some []⟩ :
          StatsCursor) with statIndex := 0, current := none } = true) :=
  gitStats_Next_state_machine
    ⟨some ⟨"C", 1, [], []⟩, [⟨"a", 1, 0⟩, ⟨"b", 2, 0⟩], 0, some []⟩
    ⟨"C", 1, [], []⟩ rfl

/-- C10: when `Next` advances to a commit whose computed statistics list is
empty, the cursor is positioned on that commit with `EOF() = false` —
a position with no corresponding row: `Column` 1–3 index the empty
statistics list out of range (`none`), while column 0 still answers. -/
theorem gitStats_empty_stats_Column_oob (vc : StatsCursor) (c : Commit)
    (rest : List Commit)
    (hfiles : ¬ vc.stats.length > vc.statIndex + 1)
    (hiter : vc.commitIter = some (c :: rest))
    (hempty : effStats c = []) :
    vc.Next = some ⟨some c, [], 0, some rest⟩ ∧
    StatsCursor.EOF ⟨some c, [], 0, some rest⟩ = false ∧
    StatsCursor.Column ⟨some c, [], 0, some rest⟩ 0 = some (ColValue.text c.id) ∧
    StatsCursor.Column ⟨some c, [], 0, some rest⟩ 1 = none ∧
    StatsCursor.Column ⟨some c, [], 0, some rest⟩ 2 = none ∧
    StatsCursor.Column ⟨some c, [], 0, some rest⟩ 3 = none := by
  refine ⟨?_, rfl, rfl, rfl, rfl, rfl⟩
  simp [StatsCursor.Next, hfiles, hiter, hempty]

/-- C10 witness: a one-parent commit whose diff statistics are empty. -/
theorem gitStats_empty_stats_Column_oob_witness :
    (⟨none, [], 0, some [⟨"E", 1, [], []⟩]⟩ : StatsCursor).Next =
      some ⟨some ⟨"E", 1, [], []⟩, [], 0, some []⟩ ∧
    StatsCursor.EOF ⟨some ⟨"E", 1, [], []⟩, [], 0, some []⟩ = false ∧
    StatsCursor.Column ⟨some ⟨"E", 1, [], []⟩, [], 0, some []⟩ 0 =
      some (ColValue.text (Commit.mk "E" 1 [] []).id) ∧
    StatsCursor.Column ⟨some ⟨"E", 1, [], []⟩, [], 0, some []⟩ 1 = none ∧
    StatsCursor.Column ⟨some ⟨"E", 1, [], []⟩, [], 0, some []⟩ 2 = none ∧
    StatsCursor.Column ⟨some ⟨"E", 1, [], []⟩, [], 0, some []⟩ 3 = none :=
  gitStats_empty_stats_Column_oob ⟨none, [], 0, some [⟨"E", 1, [], []⟩]⟩
    ⟨"E", 1, [], []⟩ [] (by decide) rfl rfl

/-- The single-root-commit repository used against the `Filter` path: the
upstream diff provider reports `(3, 1)` for `a.txt` at the root commit
(the spec's upstream contract fixes `Stats()` only for commits with a
parent, so this is a legal provider behavior). -/
def cxRepo : Repo :=
  ⟨HeadResult.ok "H",
    [⟨"H", 0, [⟨"a.txt", ["l1", "l2", "l3"]⟩], [⟨"a.txt", 3, 1⟩]⟩]⟩

/-- C1 counterexample: in a single-commit repository the root commit is
positioned by `Filter`, which installs the upstream `Stats()` verbatim —
no root-commit special case — so the emitted row can carry a nonzero
deletion count, contradicting the claim for the `Filter`-established
root commit. -/
theorem gitStats_root_first_commit_cx :
    (cxRepo.log.map Commit.numParents = [0]) ∧
    scanRows cxRepo = Except.ok [⟨"H", some ⟨"a.txt", 3, 1⟩⟩] ∧
    ¬ (∀ rows, scanRows cxRepo = Except.ok rows →
        ∀ r ∈ rows, ∀ st, r.stat = some st → st.deletion = 0) := by
  refine ⟨rfl, rfl, ?_⟩
  intro h
  have h2 := h [⟨"H", some ⟨"a.txt", 3, 1⟩⟩] rfl
    ⟨"H", some ⟨"a.txt", 3, 1⟩⟩ (by simp) ⟨"a.txt", 3, 1⟩ rfl
  simp at h2

/-- C1 (amended): every root commit that `Next` positions the cursor on
gets the full-file enumeration: its installed statistics are exactly one
entry per file with deletions `0` and additions the file's full line
count. (For a root commit established by `Filter` — a single-commit
repository — the statistics come from the upstream `Stats()` with no
root-commit special case, so this guarantee is not established there.) -/
theorem gitStats_root_commit_stats_via_Next (vc : StatsCursor) (c : Commit)
    (rest : List Commit)
    (hfiles : ¬ vc.stats.length > vc.statIndex + 1)
    (hiter : vc.commitIter = some (c :: rest))
    (hroot : c.numParents = 0) :
    vc.Next = some ⟨some c, rootStats c, 0, some rest⟩ ∧
    rootStats c = c.files.map (fun f => ⟨f.name, (f.lines.length : Int), 0⟩) ∧
    ∀ st ∈ rootStats c, st.deletion = 0 ∧
      ∃ f ∈ c.files, st.name = f.name ∧ st.addition = (f.lines.length : Int) := by
  refine ⟨?_, rfl, ?_⟩
  · simp [StatsCursor.Next, hfiles, hiter, effStats, hroot]
  · intro st hst
    rcases List.mem_map.mp hst with ⟨f, hf, rfl⟩
    exact ⟨rfl, f, hf, rfl, rfl⟩

/-- C1 witness: `Next` reaching a two-file root commit. -/
theorem gitStats_root_commit_stats_via_Next_witness :
    (⟨none, [], 0,
        some [⟨"R", 0, [⟨"a.txt", ["one", "two", "three"]⟩,
          ⟨"b.txt", ["x", "y"]⟩], []⟩]⟩ : StatsCursor).Next =
      some ⟨some ⟨"R", 0, [⟨"a.txt", ["one", "two", "three"]⟩,
          ⟨"b.txt", ["x", "y"]⟩], []⟩,
        rootStats ⟨"R", 0, [⟨"a.txt", ["one", "two", "three"]⟩,
          ⟨"b.txt", ["x", "y"]⟩], []⟩, 0, some []⟩ ∧
    rootStats ⟨"R", 0, [⟨"a.txt", ["one", "two", "three"]⟩,
        ⟨"b.txt", ["x", "y"]⟩], []⟩ =
      (Commit.mk "R" 0 [⟨"a.txt", ["one", "two", "three"]⟩,
        ⟨"b.txt", ["x", "y"]⟩] []).files.map
        (fun f => ⟨f.name, (f.lines.length : Int), 0⟩) ∧
    ∀ st ∈ rootStats ⟨"R", 0, [⟨"a.txt", ["one", "two", "three"]⟩,
        ⟨"b.txt", ["x", "y"]⟩], []⟩,
      st.deletion = 0 ∧
      ∃ f ∈ (Commit.mk "R" 0 [⟨"a.txt", ["one", "two", "three"]⟩,
        ⟨"b.txt", ["x", "y"]⟩] []).files,
        st.name = f.name ∧ st.addition = (f.lines.length : Int) :=
  gitStats_root_commit_stats_via_Next
    ⟨none, [], 0, some [⟨"R", 0, [⟨"a.txt", ["one", "two", "three"]⟩,
      ⟨"b.txt", ["x", "y"]⟩], []⟩]⟩
    ⟨"R", 0, [⟨"a.txt", ["one", "two", "three"]⟩, ⟨"b.txt", ["x", "y"]⟩], []⟩
    [] (by decide) rfl rfl

lemma Reaches_unborn_eq_fresh (repo : Repo)
    (h : repo.head = HeadResult.refNotFound) :
    ∀ vc, Reaches repo vc → vc = freshCursor := by
  intro vc hr
  induction hr with
  | filtered vc2 hf =>
    simp only [StatsCursor.Filter, h, Except.ok.injEq] at hf
    exact hf.symm
  | refiltered vc vc2 hr hf ih =>
    subst ih
    simp only [StatsCursor.Filter, h, Except.ok.injEq] at hf
    exact hf.symm
  | stepped vc vc2 hr hn ih =>
    subst ih
    simp [StatsCursor.Next, freshCursor] at hn

/-- C5: on any cursor on which `Filter` has already been invoked (however
far iteration has progressed), invoking `Filter` again produces exactly the
state a fresh cursor's `Filter` produces — prior walker state is discarded,
the scan restarts from the tip, and the row sequence equals that of a fresh
cursor over the same repository. -/
theorem gitStats_Filter_restart (repo : Repo) (vc : StatsCursor)
    (h : Reaches repo vc) :
    vc.Filter repo = freshCursor.Filter repo ∧
    scanFrom repo vc = scanFrom repo freshCursor := by
  have hfil : vc.Filter repo = freshCursor.Filter repo := by
    cases hh : repo.head with
    | ok s => simp only [StatsCursor.Filter, hh]
    | refNotFound => rw [Reaches_unborn_eq_fresh repo hh vc h]
    | otherErr m => simp only [StatsCursor.Filter, hh]
  exact ⟨hfil, by rw [scanFrom, scanFrom, hfil]⟩

/-- The one-commit repository used to exercise a re-`Filter`. -/
def w5Repo : Repo := ⟨HeadResult.ok "W", [⟨"W", 0, [], []⟩]⟩

/-- C5 witness: the cursor `Filter` itself produced is re-filtered. -/
theorem gitStats_Filter_restart_witness :
    StatsCursor.Filter ⟨some ⟨"W", 0, [], []⟩, [], 0, some []⟩ w5Repo =
      freshCursor.Filter w5Repo ∧
    scanFrom w5Repo ⟨some ⟨"W", 0, [], []⟩, [], 0, some []⟩ =
      scanFrom w5Repo freshCursor :=
  gitStats_Filter_restart w5Repo ⟨some ⟨"W", 0, [], []⟩, [], 0, some []⟩
    (Reaches.filtered _ rfl)

/-- C2: on a repository with at least one commit, the full scan succeeds,
its rows' commit ids are exactly the walker's commits in walker order
(one nonempty contiguous block per commit), and the set of distinct
commit ids equals the set of commits the walker reaches from the tip. -/
theorem gitStats_scan_commit_ids (repo : Repo) (h0 : String) (c : Commit)
    (rest : List Commit) (hhead : repo.head = HeadResult.ok h0)
    (hlog : repo.log = c :: rest) :
    ∃ rows, scanRows repo = Except.ok rows ∧
      rows.map Row.commit_id = (scanIdBlocks repo).flatten ∧
      ∀ x, (x ∈ rows.map Row.commit_id ↔ x ∈ repo.log.map Commit.id) := by
  refine ⟨commitRowsFrom c c.stats 0 ++ logRows rest,
    scanRows_eq repo h0 c rest hhead hlog, ?_, ?_⟩
  · rw [List.map_append, map_commitId_commitRowsFrom, map_commitId_logRows]
    simp only [scanIdBlocks, hlog, List.flatten_cons]
  · intro x
    rw [List.map_append, map_commitId_commitRowsFrom, map_commitId_logRows,
      hlog, List.map_cons, List.mem_append, List.mem_cons]
    have hb := mem_flatten_replicate_blocks
      (fun k => max 1 (effStats k).length) (fun k => le_max_left _ _) rest x
    constructor
    · rintro (hx | hx)
      · exact Or.inl (List.mem_replicate.mp hx).2
      · exact Or.inr (hb.mp hx)
    · rintro (hx | hx)
      · refine Or.inl (List.mem_replicate.mpr ⟨?_, hx⟩)
        have h1 : 1 ≤ max 1 c.stats.length := le_max_left _ _
        omega
      · exact Or.inr (hb.mpr hx)

/-- The two-commit repository used to exercise a full scan. -/
def w2Repo : Repo :=
  ⟨HeadResult.ok "H2",
    [⟨"H2", 1, [], [⟨"a.txt", 3, 1⟩]⟩,
      ⟨"H1", 0, [⟨"a.txt", ["1", "2", "3", "4", "5"]⟩], []⟩]⟩

/-- C2 witness: the concrete two-commit repository. -/
theorem gitStats_scan_commit_ids_witness :
    ∃ rows, scanRows w2Repo = Except.ok rows ∧
      rows.map Row.commit_id = (scanIdBlocks w2Repo).flatten ∧
      ∀ x, (x ∈ rows.map Row.commit_id ↔ x ∈ w2Repo.log.map Commit.id) :=
  gitStats_scan_commit_ids w2Repo "H2" ⟨"H2", 1, [], [⟨"a.txt", 3, 1⟩]⟩
    [⟨"H1", 0, [⟨"a.txt", ["1", "2", "3", "4", "5"]⟩], []⟩] rfl rfl
